import Mathlib

/-!
Verification of the unhead head-entry resolution engine and script loader,
following the repository's specification.  The implementation of the engine
(Entry Registry, Resolver, SSR Renderer, Script Loader) is not present in the
repository snapshot — only its type declarations (`packages/schema/src/script.ts`)
and documentation are — so the executable definitions below are modelled from
the specification's words and the in-repository documentation, and checked
against them.
-/

namespace Unhead

/-- Modelled from the spec: the structural region of the document a tag belongs
to (`zone: enum{head, bodyOpen, bodyClose, htmlAttrs, bodyAttrs}`). -/
inductive Zone where
  | head
  | bodyOpen
  | bodyClose
  | htmlAttrs
  | bodyAttrs
deriving DecidableEq, Repr

/-- Modelled from the spec: attribute values are `string|boolean|number`. -/
inductive AttrValue where
  | str (s : String)
  | boolean (b : Bool)
  | num (n : Int)
deriving DecidableEq, Repr

/-- Modelled from the spec: a head tag
`{ kind, attributes, textContent?, innerHTML?, zone }`. -/
structure Tag where
  kind : String
  attributes : List (String × AttrValue)
  textContent : Option String
  innerHTML : Option String
  zone : Zone
deriving DecidableEq, Repr

/-- Look up an attribute by name (first occurrence). -/
def Tag.attr (t : Tag) (n : String) : Option AttrValue :=
  (t.attributes.find? (fun p => p.fst == n)).map Prod.snd

/-- Look up a string-valued attribute by name. -/
def Tag.strAttr (t : Tag) (n : String) : Option String :=
  match t.attr n with
  | some (AttrValue.str s) => some s
  | _ => none

/-- Modelled from the spec: "canonical-like" rels for link dedup keys. -/
def canonicalRel (r : String) : Bool :=
  r == "canonical"

/-- Modelled from the spec: `dedupKey` is derived deterministically from `kind`
plus a canonical identifying attribute (`meta` with `name`/`property`/`charset`,
`link` with `rel`+`href` for canonical-like rels, `title`, `base`); singleton
zones (`htmlAttrs`, `bodyAttrs`) and the `title` kind act as a single synthetic
dedup key each.  Absence of a derivable key means the tag is never deduplicated. -/
def dedupKey (t : Tag) : Option String :=
  match t.zone with
  | Zone.htmlAttrs => some "htmlAttrs"
  | Zone.bodyAttrs => some "bodyAttrs"
  | _ =>
    if t.kind == "title" then some "title"
    else if t.kind == "base" then some "base"
    else if t.kind == "meta" then
      match t.strAttr "charset" with
      | some _ => some "meta:charset"
      | none =>
        match t.strAttr "name" with
        | some n => some ("meta:name:" ++ n)
        | none =>
          match t.strAttr "property" with
          | some p => some ("meta:property:" ++ p)
          | none => none
    else if t.kind == "link" then
      match t.strAttr "rel", t.strAttr "href" with
      | some r, some h => if canonicalRel r then some ("link:" ++ r ++ ":" ++ h) else none
      | _, _ => none
    else none

/-- Modelled from the spec: entry priority
`number | 'critical' | 'high' | 'low' (maps to a numeric band)`. -/
inductive Priority where
  | critical
  | high
  | low
  | num (n : Int)
deriving DecidableEq, Repr

/-- Modelled from the spec: the numeric band a priority maps to.  Bands are
ordered ascending = higher priority first, so a lower band number means a
higher priority; the default priority is the `0` band. -/
def priorityBand : Priority → Int
  | Priority.critical => -80
  | Priority.high => -10
  | Priority.low => 10
  | Priority.num n => n

/-- Modelled from the spec: entry rendering mode `enum{client, server, both}`. -/
inductive EntryMode where
  | client
  | server
  | both
deriving DecidableEq, Repr

/-- Modelled from the spec: an Entry
`{ id, tags, priority, mode, createdAt: monotonic sequence number }`. -/
structure Entry where
  id : Nat
  tags : List Tag
  priority : Priority
  mode : EntryMode
  createdAt : Nat
deriving DecidableEq, Repr

/-- Strict snapshot order on entries: priority band ascending (higher priority
first), then sequence number ascending. -/
def entryLT (a b : Entry) : Bool :=
  priorityBand a.priority < priorityBand b.priority ||
    (priorityBand a.priority == priorityBand b.priority &&
      decide (a.createdAt < b.createdAt))

/-- Stable insertion used by `sortEntries`: an entry is placed after every
strictly smaller entry and before equal ones, preserving declaration order
among equals. -/
def insertEntry (e : Entry) : List Entry → List Entry
  | [] => [e]
  | f :: fs => if entryLT f e then f :: insertEntry e fs else e :: f :: fs

/-- Modelled from the spec: `snapshot()` — the registry's entries ordered by
(priority band ascending, then sequence number ascending). -/
def sortEntries : List Entry → List Entry
  | [] => []
  | e :: es => insertEntry e (sortEntries es)

/-- A tag in the flattened working sequence, carrying its owning entry's
priority band and sequence number. -/
structure FlatTag where
  tag : Tag
  band : Int
  seq : Nat
deriving DecidableEq, Repr

/-- Modelled from the spec: step 1 of the merge algorithm — flatten every
entry's tags of the ordered snapshot into a single working sequence. -/
def flatten (es : List Entry) : List FlatTag :=
  ((sortEntries es).map
    (fun e => e.tags.map (fun t => FlatTag.mk t (priorityBand e.priority) e.createdAt))).flatten

/-- Modelled from the spec: winner comparison within a dedup group — the
candidate `b` beats the incumbent `a` when it has a strictly higher priority
(lower band), or an equal band and a sequence number at least as high
(last-registered wins on priority ties). -/
def better (a b : FlatTag) : FlatTag :=
  if b.band < a.band then b
  else if b.band == a.band && decide (a.seq ≤ b.seq) then b
  else a

/-- The dedup group of key `k` inside a flattened sequence. -/
def keyGroup (k : String) (fl : List FlatTag) : List FlatTag :=
  fl.filter (fun f => dedupKey f.tag == some k)

/-- Modelled from the spec: the winning tag of a dedup group — highest priority
band, ties broken by highest sequence number. -/
def winnerOf (k : String) (fl : List FlatTag) : Option FlatTag :=
  match keyGroup k fl with
  | [] => none
  | g :: gs => some (gs.foldl better g)

/-- Modelled from the spec: steps 2–4 of the merge algorithm — walk the
flattened sequence; unkeyed tags pass through untouched in flattened order;
the winner of every dedup group is emitted at the position of the first
occurrence of its key. -/
def dedupStep (fl : List FlatTag) (seen : List String) : List FlatTag → List Tag
  | [] => []
  | ft :: rest =>
    match dedupKey ft.tag with
    | none => ft.tag :: dedupStep fl seen rest
    | some k =>
      if seen.contains k then dedupStep fl seen rest
      else
        match winnerOf k fl with
        | some w => w.tag :: dedupStep fl (k :: seen) rest
        | none => dedupStep fl (k :: seen) rest

/-- Modelled from the spec: the Resolver's merge algorithm from a list of
entries to the canonical deduplicated ordered tag list. -/
def resolveTags (es : List Entry) : List Tag :=
  dedupStep (flatten es) [] (flatten es)

/-- Modelled from the spec: the Entry Registry state — ordered entries, fresh
id and sequence counters, the registry generation counter, and the memoized
resolved list tagged with the generation it was computed at. -/
structure Registry where
  entries : List Entry
  nextId : Nat
  nextSeq : Nat
  generation : Nat
  cache : Option (Nat × List Tag)
deriving DecidableEq, Repr

/-- The empty registry. -/
def emptyRegistry : Registry :=
  Registry.mk [] 0 0 0 none

/-- Modelled from the spec: `push(tags, options) → id` — allocates a new entry,
assigns the next sequence number, stores it, invalidates the resolved cache by
bumping the generation. -/
def push (r : Registry) (tags : List Tag) (prio : Priority) (mode : EntryMode) :
    Registry × Nat :=
  let e : Entry := Entry.mk r.nextId tags prio mode r.nextSeq
  (Registry.mk (r.entries ++ [e]) (r.nextId + 1) (r.nextSeq + 1) (r.generation + 1) r.cache,
    r.nextId)

/-- Whether the registry holds an entry with the given id. -/
def containsId (r : Registry) (id : Nat) : Bool :=
  r.entries.any (fun e => e.id == id)

/-- Modelled from the spec: `update(id, tags)` — replaces an entry's tag set in
place, preserving its original sequence number; a silent no-op when `id` is
unknown. -/
def update (r : Registry) (id : Nat) (tags : List Tag) : Registry :=
  if containsId r id then
    Registry.mk
      (r.entries.map (fun e => if e.id == id then
        Entry.mk e.id tags e.priority e.mode e.createdAt else e))
      r.nextId r.nextSeq (r.generation + 1) r.cache
  else r

/-- Modelled from the spec: `remove(id) → boolean` — `true` if the entry
existed and was removed (invalidating the cache), `false` otherwise. -/
def remove (r : Registry) (id : Nat) : Registry × Bool :=
  if containsId r id then
    (Registry.mk (r.entries.filter (fun e => e.id != id))
      r.nextId r.nextSeq (r.generation + 1) r.cache, true)
  else (r, false)

/-- Modelled from the spec: `resolve()` — memoized on the registry generation;
when the cached generation matches the current one the stored list itself is
returned with the state untouched, otherwise the list is recomputed and
stored. -/
def resolve (r : Registry) : Registry × List Tag :=
  match r.cache with
  | some gl =>
    if gl.fst == r.generation then (r, gl.snd)
    else
      let l := resolveTags r.entries
      (Registry.mk r.entries r.nextId r.nextSeq r.generation (some (r.generation, l)), l)
  | none =>
    let l := resolveTags r.entries
    (Registry.mk r.entries r.nextId r.nextSeq r.generation (some (r.generation, l)), l)

/-- A plain title tag used by the concrete examples. -/
def titleTag (s : String) : Tag :=
  Tag.mk "title" [] (some s) none Zone.head

/-- Concrete example registry: title `A` pushed before title `B`, both at the
default priority. -/
def regTitleDefault : Registry :=
  (push (push emptyRegistry [titleTag "A"] (Priority.num 0) EntryMode.both).1
    [titleTag "B"] (Priority.num 0) EntryMode.both).1

/-- Concrete example registry: title `B` at priority high pushed first, then
title `A` at priority low. -/
def regTitleHighThenLow : Registry :=
  (push (push emptyRegistry [titleTag "B"] Priority.high EntryMode.both).1
    [titleTag "A"] Priority.low EntryMode.both).1

/-- Concrete example registry: title `A` at priority low pushed first, then
title `B` at priority high. -/
def regTitleLowThenHigh : Registry :=
  (push (push emptyRegistry [titleTag "A"] Priority.low EntryMode.both).1
    [titleTag "B"] Priority.high EntryMode.both).1

/-- The dominance relation selected by the merge algorithm: `w` beats `g` when
`w` sits in a band of at least as high a priority (numerically no larger), and
on a band tie carries a sequence number at least as high. -/
def Beats (w g : FlatTag) : Prop :=
  w.band ≤ g.band ∧ (w.band = g.band → g.seq ≤ w.seq)

lemma beats_refl (a : FlatTag) : Beats a a :=
  ⟨le_refl _, fun _ => le_refl _⟩

lemma beats_trans {a b c : FlatTag} (h1 : Beats a b) (h2 : Beats b c) : Beats a c := by
  obtain ⟨hab, sab⟩ := h1
  obtain ⟨hbc, sbc⟩ := h2
  refine ⟨le_trans hab hbc, fun he => ?_⟩
  have h1' : a.band = b.band := by omega
  have h2' : b.band = c.band := by omega
  exact le_trans (sbc h2') (sab h1')

lemma better_eq_or (a b : FlatTag) : better a b = a ∨ better a b = b := by
  unfold better
  split
  · exact Or.inr rfl
  · split
    · exact Or.inr rfl
    · exact Or.inl rfl

lemma better_beats_left (a b : FlatTag) : Beats (better a b) a := by
  unfold better
  split
  · rename_i h
    exact ⟨le_of_lt h, fun he => by omega⟩
  · rename_i h
    split
    · rename_i h2
      simp only [Bool.and_eq_true, beq_iff_eq, decide_eq_true_eq] at h2
      exact ⟨le_of_eq h2.1, fun _ => h2.2⟩
    · exact beats_refl a

lemma better_beats_right (a b : FlatTag) : Beats (better a b) b := by
  unfold better
  split
  · exact beats_refl b
  · rename_i h
    split
    · exact beats_refl b
    · rename_i h2
      simp only [Bool.and_eq_true, beq_iff_eq, decide_eq_true_eq, not_and] at h2
      constructor
      · omega
      · intro he
        by_cases hs : a.seq ≤ b.seq
        · exact absurd hs (h2 he.symm)
        · omega

lemma foldl_better_beats (l : List FlatTag) :
    ∀ (a g : FlatTag), (g = a ∨ g ∈ l) → Beats (l.foldl better a) g := by
  induction l with
  | nil =>
    intro a g hg
    rcases hg with h | h
    · subst h; exact beats_refl g
    · cases h
  | cons b l ih =>
    intro a g hg
    have hstep : Beats ((b :: l).foldl better a) (better a b) :=
      ih (better a b) (better a b) (Or.inl rfl)
    rcases hg with h | h
    · subst h
      exact beats_trans hstep (better_beats_left g b)
    · rcases List.mem_cons.mp h with h | h
      · subst h
        exact beats_trans hstep (better_beats_right a g)
      · exact ih (better a b) g (Or.inr h)

lemma foldl_better_mem (l : List FlatTag) :
    ∀ (a : FlatTag), l.foldl better a = a ∨ l.foldl better a ∈ l := by
  induction l with
  | nil => intro a; exact Or.inl rfl
  | cons b l ih =>
    intro a
    rcases ih (better a b) with h | h
    · rcases better_eq_or a b with h2 | h2
      · exact Or.inl (by rw [List.foldl_cons, h, h2])
      · exact Or.inr (by rw [List.foldl_cons, h, h2]; exact List.mem_cons_self _ _)
    · exact Or.inr (List.mem_cons_of_mem _ h)

lemma winnerOf_mem {k : String} {fl : List FlatTag} {w : FlatTag}
    (h : winnerOf k fl = some w) : w ∈ keyGroup k fl := by
  unfold winnerOf at h
  rcases hg : keyGroup k fl with _ | ⟨g, gs⟩
  · rw [hg] at h; cases h
  · rw [hg] at h
    injection h with h
    rcases foldl_better_mem gs g with h2 | h2
    · rw [← h, h2]; exact List.mem_cons_self _ _
    · rw [← h]; exact List.mem_cons_of_mem _ h2

lemma winnerOf_key {k : String} {fl : List FlatTag} {w : FlatTag}
    (h : winnerOf k fl = some w) : dedupKey w.tag = some k := by
  have hm := winnerOf_mem h
  unfold keyGroup at hm
  have := List.of_mem_filter hm
  simpa using this

lemma winnerOf_beats {k : String} {fl : List FlatTag} {w : FlatTag}
    (h : winnerOf k fl = some w) : ∀ g ∈ keyGroup k fl, Beats w g := by
  intro g hg
  unfold winnerOf at h
  rcases hgrp : keyGroup k fl with _ | ⟨g0, gs⟩
  · rw [hgrp] at hg; cases hg
  · rw [hgrp] at h
    injection h with h
    rw [hgrp] at hg
    rcases List.mem_cons.mp hg with h2 | h2
    · rw [← h]; exact foldl_better_beats gs g0 g (Or.inl h2)
    · rw [← h]; exact foldl_better_beats gs g0 g (Or.inr h2)

lemma dedupStep_nil (fl : List FlatTag) (seen : List String) :
    dedupStep fl seen [] = [] := rfl

lemma dedupStep_cons_none {ft : FlatTag} (fl : List FlatTag) (seen : List String)
    (rest : List FlatTag) (hk : dedupKey ft.tag = none) :
    dedupStep fl seen (ft :: rest) = ft.tag :: dedupStep fl seen rest := by
  conv_lhs => rw [dedupStep.eq_def]
  simp only [hk]

lemma dedupStep_cons_seen {ft : FlatTag} {k' : String} (fl : List FlatTag)
    (seen : List String) (rest : List FlatTag) (hk : dedupKey ft.tag = some k')
    (hc : seen.contains k' = true) :
    dedupStep fl seen (ft :: rest) = dedupStep fl seen rest := by
  conv_lhs => rw [dedupStep.eq_def]
  simp only [hk, hc, if_true]

lemma dedupStep_cons_new_some {ft w : FlatTag} {k' : String} (fl : List FlatTag)
    (seen : List String) (rest : List FlatTag) (hk : dedupKey ft.tag = some k')
    (hc : seen.contains k' = false) (hw : winnerOf k' fl = some w) :
    dedupStep fl seen (ft :: rest) = w.tag :: dedupStep fl (k' :: seen) rest := by
  conv_lhs => rw [dedupStep.eq_def]
  simp only [hk, hc, Bool.false_eq_true, if_false, hw]

lemma dedupStep_cons_new_none {ft : FlatTag} {k' : String} (fl : List FlatTag)
    (seen : List String) (rest : List FlatTag) (hk : dedupKey ft.tag = some k')
    (hc : seen.contains k' = false) (hw : winnerOf k' fl = none) :
    dedupStep fl seen (ft :: rest) = dedupStep fl (k' :: seen) rest := by
  conv_lhs => rw [dedupStep.eq_def]
  simp only [hk, hc, Bool.false_eq_true, if_false, hw]

lemma contains_eq_true_of_mem {seen : List String} {k : String} (h : k ∈ seen) :
    seen.contains k = true := by
  simpa using h

lemma dedupStep_countP (fl : List FlatTag) (k : String) :
    ∀ (l : List FlatTag) (seen : List String),
      ((dedupStep fl seen l).countP (fun t => dedupKey t == some k) ≤ 1) ∧
      (k ∈ seen → (dedupStep fl seen l).countP (fun t => dedupKey t == some k) = 0) := by
  intro l
  induction l with
  | nil => intro seen; simp [dedupStep_nil]
  | cons ft rest ih =>
    intro seen
    rcases hk : dedupKey ft.tag with _ | k'
    · rw [dedupStep_cons_none fl seen rest hk]
      simp only [List.countP_cons, hk]
      have hne : ((none : Option String) == some k) = false := rfl
      simp only [hne, if_false, Nat.add_zero]
      exact ih seen
    · by_cases hc : seen.contains k' = true
      · rw [dedupStep_cons_seen fl seen rest hk hc]
        exact ih seen
      · have hc' : seen.contains k' = false := by
          simpa using hc
        rcases hw : winnerOf k' fl with _ | w
        · rw [dedupStep_cons_new_none fl seen rest hk hc' hw]
          refine ⟨(ih (k' :: seen)).1, fun hks =>
            (ih (k' :: seen)).2 (List.mem_cons_of_mem _ hks)⟩
        · rw [dedupStep_cons_new_some fl seen rest hk hc' hw]
          have hwk : dedupKey w.tag = some k' := winnerOf_key hw
          simp only [List.countP_cons, hwk]
          by_cases hkk : k' = k
          · subst hkk
            have hz : (dedupStep fl (k' :: seen) rest).countP
                (fun t => dedupKey t == some k') = 0 :=
              (ih (k' :: seen)).2 (List.mem_cons_self _ _)
            simp only [hz, beq_self_eq_true, if_true, Nat.zero_add]
            refine ⟨le_refl 1, fun hks => ?_⟩
            exfalso
            have hcm := contains_eq_true_of_mem hks
            rw [hc'] at hcm
            cases hcm
          · have hne : (some k' == some k) = false := by
              simp [hkk]
            simp only [hne, if_false, Nat.add_zero]
            refine ⟨(ih (k' :: seen)).1, fun hks =>
              (ih (k' :: seen)).2 (List.mem_cons_of_mem _ hks)⟩

lemma dedupStep_filter_unkeyed (fl : List FlatTag) :
    ∀ (l : List FlatTag) (seen : List String),
      (dedupStep fl seen l).filter (fun t => (dedupKey t).isNone) =
        (l.map FlatTag.tag).filter (fun t => (dedupKey t).isNone) := by
  intro l
  induction l with
  | nil => intro seen; simp [dedupStep_nil]
  | cons ft rest ih =>
    intro seen
    rcases hk : dedupKey ft.tag with _ | k'
    · rw [dedupStep_cons_none fl seen rest hk]
      simp only [List.map_cons, List.filter_cons, hk, Option.isNone_none, if_true]
      rw [ih seen]
    · by_cases hc : seen.contains k' = true
      · rw [dedupStep_cons_seen fl seen rest hk hc]
        simp only [List.map_cons, List.filter_cons, hk, Option.isNone_some,
          Bool.false_eq_true, if_false]
        exact ih seen
      · have hc' : seen.contains k' = false := by
          simpa using hc
        rcases hw : winnerOf k' fl with _ | w
        · rw [dedupStep_cons_new_none fl seen rest hk hc' hw]
          simp only [List.map_cons, List.filter_cons, hk, Option.isNone_some,
            Bool.false_eq_true, if_false]
          exact ih (k' :: seen)
        · rw [dedupStep_cons_new_some fl seen rest hk hc' hw]
          have hwk : dedupKey w.tag = some k' := winnerOf_key hw
          simp only [List.map_cons, List.filter_cons, hk, hwk, Option.isNone_some,
            Bool.false_eq_true, if_false]
          exact ih (k' :: seen)

lemma dedupStep_keyed_mem (fl : List FlatTag) :
    ∀ (l : List FlatTag) (seen : List String) (u : Tag) (k : String),
      u ∈ dedupStep fl seen l → dedupKey u = some k →
      ∃ w, winnerOf k fl = some w ∧ u = w.tag := by
  intro l
  induction l with
  | nil => intro seen u k hm; cases hm
  | cons ft rest ih =>
    intro seen u k hm hku
    rcases hk : dedupKey ft.tag with _ | k'
    · rw [dedupStep_cons_none fl seen rest hk] at hm
      rcases List.mem_cons.mp hm with h | h
      · subst h; rw [hku] at hk; cases hk
      · exact ih seen u k h hku
    · by_cases hc : seen.contains k' = true
      · rw [dedupStep_cons_seen fl seen rest hk hc] at hm
        exact ih seen u k hm hku
      · have hc' : seen.contains k' = false := by
          simpa using hc
        rcases hw : winnerOf k' fl with _ | w
        · rw [dedupStep_cons_new_none fl seen rest hk hc' hw] at hm
          exact ih (k' :: seen) u k hm hku
        · rw [dedupStep_cons_new_some fl seen rest hk hc' hw] at hm
          rcases List.mem_cons.mp hm with h | h
          · subst h
            have hwk : dedupKey w.tag = some k' := winnerOf_key hw
            rw [hku] at hwk
            injection hwk with hkk
            subst hkk
            exact ⟨w, hw, rfl⟩
          · exact ih (k' :: seen) u k h hku

lemma remove_snd_false {r : Registry} {id : Nat} (h : containsId r id = false) :
    (remove r id).2 = false := by
  simp [remove, h]

lemma containsId_remove_self (r : Registry) (id : Nat) :
    containsId (remove r id).1 id = false := by
  by_cases h : containsId r id = true
  · simp only [remove, h, if_true]
    rw [Bool.eq_false_iff]
    intro hco
    unfold containsId at hco
    simp only [List.any_eq_true] at hco
    obtain ⟨e, he, hei⟩ := hco
    have hne := List.of_mem_filter he
    simp only [bne_iff_ne, ne_eq] at hne
    simp only [beq_iff_eq] at hei
    exact hne hei
  · have h' : containsId r id = false := by simpa using h
    simp [remove, h']

/-- C1: for every entry list (hence for every sequence of `push` calls), the
Resolved Tag List contains at most one tag per distinct dedup key, and the
unkeyed tags of the output are exactly the unkeyed tags of the flattened
working sequence, in flattened order — unkeyed tags are never eliminated. -/
theorem resolved_list_dedup_invariant (es : List Entry) (k : String) :
    ((resolveTags es).countP (fun t => dedupKey t == some k) ≤ 1) ∧
    ((resolveTags es).filter (fun t => (dedupKey t).isNone) =
      ((flatten es).map FlatTag.tag).filter (fun t => (dedupKey t).isNone)) := by
  constructor
  · exact (dedupStep_countP (flatten es) k (flatten es) []).1
  · exact dedupStep_filter_unkeyed (flatten es) (flatten es) []

/-- C2: every keyed tag of the resolved output is the winner of its dedup
group — a tag of the group whose priority band is numerically no larger than
any other member's (highest priority band wins, bands ascending = higher
priority first) and which, on band ties, carries a sequence number at least as
high (most recently pushed entry wins).  In particular, pushing title `A` then
title `B` at the default priority resolves the title to `B`, and title `B` at
priority high beats title `A` at priority low in either push order. -/
theorem resolver_winner_selection :
    (∀ (es : List Entry) (k : String) (u : Tag),
        u ∈ resolveTags es → dedupKey u = some k →
        ∃ w, winnerOf k (flatten es) = some w ∧ u = w.tag ∧
          w ∈ keyGroup k (flatten es) ∧
          ∀ g ∈ keyGroup k (flatten es), Beats w g) ∧
    (resolve regTitleDefault).2 = [titleTag "B"] ∧
    (resolve regTitleLowThenHigh).2 = [titleTag "B"] ∧
    (resolve regTitleHighThenLow).2 = [titleTag "B"] := by
  refine ⟨?_, by decide, by decide, by decide⟩
  intro es k u hm hk
  obtain ⟨w, hw, hu⟩ := dedupStep_keyed_mem (flatten es) (flatten es) [] u k hm hk
  exact ⟨w, hw, hu, winnerOf_mem hw, winnerOf_beats hw⟩

/-- Witness for C2 at a concrete input: the resolved title `B` of
`regTitleDefault` is the winner of the `title` dedup group. -/
theorem resolver_winner_selection_witness :
    ∃ w, winnerOf "title" (flatten regTitleDefault.entries) = some w ∧
      titleTag "B" = w.tag ∧ w ∈ keyGroup "title" (flatten regTitleDefault.entries) ∧
      ∀ g ∈ keyGroup "title" (flatten regTitleDefault.entries), Beats w g :=
  resolver_winner_selection.1 regTitleDefault.entries "title" (titleTag "B")
    (by decide) (by decide)

/-- C3: `resolve` is memoized on the registry generation — resolving the state
returned by a resolve again yields the very same state and the stored cached
list (the cache-hit branch returns the memoized list itself, the
reference-stability of the spec), and every invalidating mutation (`push`,
`update` of a known id, successful `remove`) increments the generation
counter. -/
theorem resolve_generation_memoized (r : Registry) :
    (resolve (resolve r).1 = ((resolve r).1, (resolve r).2)) ∧
    ((resolve r).1.cache = some ((resolve r).1.generation, (resolve r).2)) ∧
    (∀ tags prio mode, (push r tags prio mode).1.generation = r.generation + 1) ∧
    (∀ id tags, containsId r id = true →
      (update r id tags).generation = r.generation + 1) ∧
    (∀ id, (remove r id).2 = true → (remove r id).1.generation = r.generation + 1) := by
  refine ⟨?_, ?_, ?_, ?_, ?_⟩
  · rcases hc : r.cache with _ | gl
    · simp [resolve, hc]
    · rcases gl with ⟨g, l⟩
      by_cases hg : g = r.generation
      · subst hg
        simp [resolve, hc]
      · have hgb : (g == r.generation) = false := by simp [hg]
        simp [resolve, hc, hgb]
  · rcases hc : r.cache with _ | gl
    · simp [resolve, hc]
    · rcases gl with ⟨g, l⟩
      by_cases hg : g = r.generation
      · subst hg
        simp [resolve, hc]
      · have hgb : (g == r.generation) = false := by simp [hg]
        simp [resolve, hc, hgb]
  · intro tags prio mode
    rfl
  · intro id tags h
    simp [update, h]
  · intro id h
    by_cases hc : containsId r id = true
    · simp [remove, hc]
    · simp [remove, hc] at h

/-- Witness for C3 at a concrete input: the populated example registry. -/
theorem resolve_generation_memoized_witness :
    (resolve (resolve regTitleDefault).1 =
      ((resolve regTitleDefault).1, (resolve regTitleDefault).2)) ∧
    ((update regTitleDefault 0 []).generation = regTitleDefault.generation + 1) ∧
    ((remove regTitleDefault 0).1.generation = regTitleDefault.generation + 1) :=
  ⟨(resolve_generation_memoized regTitleDefault).1,
    (resolve_generation_memoized regTitleDefault).2.2.2.1 0 [] (by decide),
    (resolve_generation_memoized regTitleDefault).2.2.2.2 0 (by decide)⟩

/-- C9: `remove(id)` returns `true` exactly when the entry is present, and
`false` on every subsequent call with the same id; `update` with an unknown id
is a silent no-op that leaves the registry untouched (and, being a total
function, never throws). -/
theorem remove_once_update_noop (r : Registry) (id : Nat) (tags : List Tag) :
    ((remove r id).2 = true ↔ containsId r id = true) ∧
    ((remove (remove r id).1 id).2 = false) ∧
    (containsId r id = false → update r id tags = r) := by
  refine ⟨?_, ?_, ?_⟩
  · by_cases h : containsId r id = true
    · simp [remove, h]
    · have h' : containsId r id = false := by simpa using h
      simp [remove, h']
  · exact remove_snd_false (containsId_remove_self r id)
  · intro h
    simp [update, h]

/-- Witness for C9 at a concrete input: the empty registry and the populated
example registry. -/
theorem remove_once_update_noop_witness :
    ((remove regTitleDefault 1).2 = true ↔ containsId regTitleDefault 1 = true) ∧
    ((remove (remove regTitleDefault 1).1 1).2 = false) ∧
    (update emptyRegistry 7 [] = emptyRegistry) :=
  ⟨(remove_once_update_noop regTitleDefault 1 []).1,
    (remove_once_update_noop regTitleDefault 1 []).2.1,
    (remove_once_update_noop emptyRegistry 7 []).2.2 (by decide)⟩

/-- From `src/packages/schema/src/script.ts`:
`UseScriptStatus = 'awaitingLoad' | 'loading' | 'loaded' | 'error' | 'removed'`. -/
inductive ScriptStatus where
  | awaitingLoad
  | loading
  | loaded
  | error
  | removed
deriving DecidableEq, Repr

/-- Modelled from the spec: the events that drive a script instance's status —
a `load()` call (or an equivalent trigger firing), the underlying script-ready
signal, the load-failure signal, and `remove()`. -/
inductive ScriptEvent where
  | loadCall
  | netOk
  | netFail
  | removeCall
deriving DecidableEq, Repr

/-- Modelled from the spec: the Script Loader state machine
`awaitingLoad → loading → {loaded | error}` with the orthogonal terminal
`removed` reachable from any state via `remove()`; every other event is a
no-op in states it does not apply to (in particular a second `load()` while
already `loading` causes no new transition). -/
def scriptStep : ScriptStatus → ScriptEvent → ScriptStatus
  | _, ScriptEvent.removeCall => ScriptStatus.removed
  | ScriptStatus.awaitingLoad, ScriptEvent.loadCall => ScriptStatus.loading
  | ScriptStatus.loading, ScriptEvent.netOk => ScriptStatus.loaded
  | ScriptStatus.loading, ScriptEvent.netFail => ScriptStatus.error
  | s, _ => s

/-- Run a sequence of script events from a starting status. -/
def runScript (s : ScriptStatus) : List ScriptEvent → ScriptStatus
  | [] => s
  | e :: es => runScript (scriptStep s e) es

/-- The `ScriptInstance` surface as declared in
`src/packages/schema/src/script.ts` (lines 21–39).  The declaration types both
`onLoaded` and `onError` with return type `void`, embedded here as `Unit`;
the resolved API type is the parameter `T` and the error value is abstracted
to an optional message. -/
structure ScriptInstanceDecl (T : Type) where
  id : String
  status : ScriptStatus
  inst : Option T
  load : Unit → Option T
  rm : Unit → Bool
  onLoaded : (T → Unit) → Unit
  onError : (Option String → Unit) → Unit

/-- Modelled from the spec: a script instance record held by the Script
Loader. -/
structure ScriptInst where
  id : Nat
  key : String
  status : ScriptStatus
  entryId : Nat
deriving DecidableEq, Repr

/-- Modelled from the spec: a script declaration — the script's `src`, an
optional explicit dedup `key`, and another (dedup-irrelevant) option that may
differ between declarations. -/
structure ScriptDescriptor where
  src : String
  key : Option String
  asyncAttr : Bool
deriving DecidableEq, Repr

/-- Modelled from the spec: the script dedup key — the explicit `key` option
if given, else the script's `src`. -/
def scriptKey (d : ScriptDescriptor) : String :=
  match d.key with
  | some k => k
  | none => d.src

/-- The head tag a script declaration injects. -/
def scriptTag (d : ScriptDescriptor) : Tag :=
  Tag.mk "script"
    ([("src", AttrValue.str d.src)] ++
      (if d.asyncAttr then [("async", AttrValue.boolean true)] else []))
    none none Zone.head

/-- Modelled from the spec: the Script Loader state — the backing head
registry, the live instances, a fresh instance-id counter, and the log of
`beforeInit` invocations (one key per invocation, in order). -/
structure Scripts where
  head : Registry
  instances : List ScriptInst
  nextInstId : Nat
  initLog : List String
deriving Repr

/-- The empty Script Loader state. -/
def emptyScripts : Scripts :=
  Scripts.mk emptyRegistry [] 0 []

/-- The live instance for a dedup key, when there is one. -/
def findInst (s : Scripts) (k : String) : Option ScriptInst :=
  s.instances.find? (fun i => i.key == k)

/-- Whether a live instance exists for the key. -/
def hasInst (s : Scripts) (k : String) : Bool :=
  (findInst s k).isSome

/-- Modelled from the spec: `declare(descriptor, options) → ScriptInstance` —
a declaration whose dedup key already has a live instance returns that
instance unchanged (no new Entry, no `beforeInit`); otherwise a fresh instance
is created starting at `awaitingLoad`, its script tag is pushed as a new
Entry, and `beforeInit` runs exactly once (recorded in `initLog`). -/
def declare (s : Scripts) (d : ScriptDescriptor) : Scripts × Nat :=
  let k := scriptKey d
  match findInst s k with
  | some inst => (s, inst.id)
  | none =>
    let pr := push s.head [scriptTag d] (Priority.num 0) EntryMode.both
    let inst : ScriptInst := ScriptInst.mk s.nextInstId k ScriptStatus.awaitingLoad pr.2
    (Scripts.mk pr.1 (s.instances ++ [inst]) (s.nextInstId + 1) (s.initLog ++ [k]), s.nextInstId)

/-- Modelled from the spec: `remove()` — disposes the backing Entry and drops
the instance; idempotent, reporting whether anything was removed. -/
def removeScript (s : Scripts) (k : String) : Scripts × Bool :=
  match findInst s k with
  | some inst =>
    let hr := remove s.head inst.entryId
    (Scripts.mk hr.1 (s.instances.filter (fun i => i.key != k)) s.nextInstId s.initLog, true)
  | none => (s, false)

/-- A Script Loader operation: a declaration or a removal. -/
inductive ScriptOp where
  | decl (d : ScriptDescriptor)
  | rem (k : String)
deriving DecidableEq

/-- Run a sequence of Script Loader operations. -/
def runScriptOps (s : Scripts) : List ScriptOp → Scripts
  | [] => s
  | ScriptOp.decl d :: ops => runScriptOps (declare s d).1 ops
  | ScriptOp.rem k :: ops => runScriptOps (removeScript s k).1 ops

/-- How many times a key occurs in a log. -/
def countKey (k : String) (l : List String) : Nat :=
  l.countP (fun x => x == k)

/-- A proxied invocation: the property accessed and its argument. -/
structure Call where
  propName : String
  arg : Nat
deriving DecidableEq, Repr

/-- Modelled from the spec: the observable state of the proxy — the current
instance status, the queue of pending invocations, the invocations actually
executed against the resolved API, and those answered by a stub. -/
structure ProxyState where
  status : ScriptStatus
  queue : List Call
  apiLog : List Call
  stubLog : List Call
deriving DecidableEq, Repr

/-- Modelled from the spec: a proxy call — once `loaded` it runs directly
against the resolved API; before that a caller-supplied stub answers it when
one resolves for the property, otherwise the invocation is queued; in every
case the caller receives only `()` (the proxy never exposes a return value). -/
def proxyCall (stub : String → Bool) (st : ProxyState) (c : Call) : ProxyState × Unit :=
  match st.status with
  | ScriptStatus.loaded => (ProxyState.mk st.status st.queue (st.apiLog ++ [c]) st.stubLog, ())
  | _ =>
    if stub c.propName then
      (ProxyState.mk st.status st.queue st.apiLog (st.stubLog ++ [c]), ())
    else
      (ProxyState.mk st.status (st.queue ++ [c]) st.apiLog st.stubLog, ())

/-- Modelled from the spec: reaching `loaded` replays every queued invocation
against the resolved API once, in order, and empties the queue. -/
def proxyOnLoaded (st : ProxyState) : ProxyState :=
  ProxyState.mk ScriptStatus.loaded [] (st.apiLog ++ st.queue) st.stubLog

/-- Modelled from the spec: reaching `error` drops every queued invocation —
they are never replayed. -/
def proxyOnError (st : ProxyState) : ProxyState :=
  ProxyState.mk ScriptStatus.error [] st.apiLog st.stubLog

/-- Modelled from the spec: HTML-escaping of attribute values and text
content. -/
def escapeHtml (s : String) : String :=
  String.mk (s.data.foldr (fun c acc =>
    if c = '&' then "&amp;".data ++ acc
    else if c = '<' then "&lt;".data ++ acc
    else if c = '>' then "&gt;".data ++ acc
    else if c = '"' then "&quot;".data ++ acc
    else c :: acc) [])

/-- Serialize one attribute with a leading space; boolean attributes render as
a bare name when true and disappear when false. -/
def renderAttr (p : String × AttrValue) : String :=
  match p.snd with
  | AttrValue.str s => " " ++ p.fst ++ "=\"" ++ escapeHtml s ++ "\""
  | AttrValue.boolean b => if b then " " ++ p.fst else ""
  | AttrValue.num n => " " ++ p.fst ++ "=\"" ++ toString n ++ "\""

/-- Serialize an attribute list to an attribute string (leading space, ready
for direct concatenation into an opening tag). -/
def renderAttrs (attrs : List (String × AttrValue)) : String :=
  String.join (attrs.map renderAttr)

/-- Void tag kinds that serialize without a closing tag. -/
def selfClosing (kind : String) : Bool :=
  kind == "meta" || kind == "link" || kind == "base"

/-- Modelled from the spec: element content — `innerHTML` is inserted verbatim,
text content is HTML-escaped. -/
def tagContent (t : Tag) : String :=
  match t.innerHTML with
  | some h => h
  | none =>
    match t.textContent with
    | some s => escapeHtml s
    | none => ""

/-- Serialize one tag to HTML. -/
def renderTag (t : Tag) : String :=
  if selfClosing t.kind then "<" ++ t.kind ++ renderAttrs t.attributes ++ ">"
  else "<" ++ t.kind ++ renderAttrs t.attributes ++ ">" ++ tagContent t ++ "</" ++ t.kind ++ ">"

/-- Serialize a tag list, one tag per line. -/
def renderTagList (ts : List Tag) : String :=
  String.intercalate "\n" (ts.map renderTag)

/-- Modelled from the spec: the fixed-shape SSR render record
`{ headTags, bodyTagsOpen, bodyTags, htmlAttrs, bodyAttrs }`. -/
structure SSRHeadPayload where
  headTags : String
  bodyTagsOpen : String
  bodyTags : String
  htmlAttrs : String
  bodyAttrs : String
deriving DecidableEq, Repr

/-- Modelled from the spec: serialize a resolved tag list into the five SSR
fragments, partitioning by zone; the attribute zones serialize to attribute
strings rather than elements. -/
def ssrRenderTags (l : List Tag) : SSRHeadPayload :=
  SSRHeadPayload.mk
    (renderTagList (l.filter (fun t => t.zone == Zone.head)))
    (renderTagList (l.filter (fun t => t.zone == Zone.bodyOpen)))
    (renderTagList (l.filter (fun t => t.zone == Zone.bodyClose)))
    (String.join ((l.filter (fun t => t.zone == Zone.htmlAttrs)).map
      (fun t => renderAttrs t.attributes)))
    (String.join ((l.filter (fun t => t.zone == Zone.bodyAttrs)).map
      (fun t => renderAttrs t.attributes)))

/-- Modelled from the spec: `renderSSRHead` — a pure function of the current
registry state, consuming the resolved tag list. -/
def renderSSRHead (r : Registry) : SSRHeadPayload :=
  ssrRenderTags (resolve r).2

/-- Occurrence count of a (non-empty) character pattern inside a character
list, counting every start position. -/
def countOcc (pat : List Char) : List Char → Nat
  | [] => 0
  | c :: tl => (if List.isPrefixOf pat (c :: tl) then 1 else 0) + countOcc pat tl

/-- Concrete example registry for the SSR render contract: one entry pushing
title `Hello`. -/
def regHello : Registry :=
  (push emptyRegistry [titleTag "Hello"] (Priority.num 0) EntryMode.both).1

/-- Concrete script descriptor `/a.js` used by the examples. -/
def descA : ScriptDescriptor :=
  ScriptDescriptor.mk "/a.js" none false

/-- Concrete script descriptor sharing the dedup key of `descA` while
differing in another option. -/
def descB : ScriptDescriptor :=
  ScriptDescriptor.mk "/a.js" none true

/-- A Script Loader state already holding the `/a.js` instance. -/
def scriptsOne : Scripts :=
  (declare emptyScripts descA).1

lemma scriptStep_awaiting_stays (e : ScriptEvent)
    (h1 : e ≠ ScriptEvent.loadCall) (h2 : e ≠ ScriptEvent.removeCall) :
    scriptStep ScriptStatus.awaitingLoad e = ScriptStatus.awaitingLoad := by
  cases e
  · exact absurd rfl h1
  · rfl
  · rfl
  · exact absurd rfl h2

lemma runScript_stays (evs : List ScriptEvent) :
    ScriptEvent.loadCall ∉ evs → ScriptEvent.removeCall ∉ evs →
    runScript ScriptStatus.awaitingLoad evs = ScriptStatus.awaitingLoad := by
  induction evs with
  | nil => intro _ _; rfl
  | cons e es ih =>
    intro h1 h2
    have he1 : e ≠ ScriptEvent.loadCall := by
      intro he; exact h1 (he ▸ List.mem_cons_self _ _)
    have he2 : e ≠ ScriptEvent.removeCall := by
      intro he; exact h2 (he ▸ List.mem_cons_self _ _)
    have hrun : runScript ScriptStatus.awaitingLoad (e :: es) =
        runScript (scriptStep ScriptStatus.awaitingLoad e) es := rfl
    rw [hrun, scriptStep_awaiting_stays e he1 he2]
    exact ih (fun hm => h1 (List.mem_cons_of_mem _ hm))
      (fun hm => h2 (List.mem_cons_of_mem _ hm))

lemma declare_of_found {s : Scripts} {d : ScriptDescriptor} {inst : ScriptInst}
    (h : findInst s (scriptKey d) = some inst) : declare s d = (s, inst.id) := by
  simp only [declare]
  rw [h]

lemma findInst_after_declare (s : Scripts) (d : ScriptDescriptor) :
    ∃ inst, findInst (declare s d).1 (scriptKey d) = some inst ∧
      inst.id = (declare s d).2 := by
  rcases hf : findInst s (scriptKey d) with _ | inst
  · refine ⟨ScriptInst.mk s.nextInstId (scriptKey d) ScriptStatus.awaitingLoad
      (push s.head [scriptTag d] (Priority.num 0) EntryMode.both).2, ?_, ?_⟩
    · simp only [declare, hf]
      unfold findInst at hf ⊢
      rw [List.find?_append, hf]
      simp
    · simp only [declare, hf]
  · refine ⟨inst, ?_, ?_⟩
    · simp [declare_of_found hf, hf]
    · simp [declare_of_found hf]

lemma declare_state_of_hasInst {s : Scripts} {d : ScriptDescriptor}
    (h : hasInst s (scriptKey d) = true) : (declare s d).1 = s := by
  unfold hasInst at h
  rcases hf : findInst s (scriptKey d) with _ | inst
  · rw [hf] at h; cases h
  · simp [declare, hf]

lemma declare_initLog_of_not (s : Scripts) (d : ScriptDescriptor)
    (h : hasInst s (scriptKey d) = false) :
    (declare s d).1.initLog = s.initLog ++ [scriptKey d] := by
  unfold hasInst at h
  rcases hf : findInst s (scriptKey d) with _ | inst
  · simp [declare, hf]
  · rw [hf] at h; cases h

lemma hasInst_declare_self (s : Scripts) (d : ScriptDescriptor) :
    hasInst (declare s d).1 (scriptKey d) = true := by
  obtain ⟨inst, hfi, _⟩ := findInst_after_declare s d
  simp [hasInst, hfi]

lemma hasInst_declare_other (s : Scripts) (d : ScriptDescriptor) (k : String)
    (h : scriptKey d ≠ k) : hasInst (declare s d).1 k = hasInst s k := by
  rcases hf : findInst s (scriptKey d) with _ | inst
  · simp only [declare, hf]
    unfold hasInst findInst
    rw [List.find?_append]
    have hnone : List.find? (fun i => i.key == k)
        [ScriptInst.mk s.nextInstId (scriptKey d) ScriptStatus.awaitingLoad
          (push s.head [scriptTag d] (Priority.num 0) EntryMode.both).2] = none := by
      simp [h]
    rw [hnone, Option.or_none]
  · rw [declare_of_found hf]

lemma find?_isSome_filter_ne (l : List ScriptInst) (k k' : String) (h : k ≠ k') :
    ((l.filter (fun i => i.key != k')).find? (fun i => i.key == k)).isSome =
      (l.find? (fun i => i.key == k)).isSome := by
  induction l with
  | nil => rfl
  | cons a l ih =>
    by_cases ha : a.key = k
    · have h1 : (a.key != k') = true := by simp [ha, h]
      have h2 : ((a.key == k) = true) := by simp [ha]
      rw [List.filter_cons, if_pos h1,
        @List.find?_cons_of_pos _ (fun i => i.key == k) a _ h2,
        @List.find?_cons_of_pos _ (fun i => i.key == k) a _ h2]
    · have h2 : ¬((a.key == k) = true) := by simp [ha]
      by_cases hfc : (a.key != k') = true
      · rw [List.filter_cons, if_pos hfc,
          @List.find?_cons_of_neg _ (fun i => i.key == k) a _ h2,
          @List.find?_cons_of_neg _ (fun i => i.key == k) a _ h2]
        exact ih
      · rw [List.filter_cons, if_neg hfc,
          @List.find?_cons_of_neg _ (fun i => i.key == k) a _ h2]
        exact ih

lemma removeScript_other (s : Scripts) (k' k : String) (h : k ≠ k') :
    hasInst (removeScript s k').1 k = hasInst s k ∧
    (removeScript s k').1.initLog = s.initLog := by
  rcases hf : findInst s k' with _ | inst
  · simp [removeScript, hf]
  · constructor
    · simp only [removeScript, hf]
      unfold hasInst findInst
      exact find?_isSome_filter_ne s.instances k k' h
    · simp [removeScript, hf]

lemma initLog_bound (k : String) :
    ∀ (ops : List ScriptOp) (s : Scripts), ScriptOp.rem k ∉ ops →
      countKey k (runScriptOps s ops).initLog ≤
        countKey k s.initLog + (if hasInst s k = true then 0 else 1) := by
  intro ops
  induction ops with
  | nil =>
    intro s _
    have : runScriptOps s [] = s := rfl
    rw [this]
    exact Nat.le_add_right _ _
  | cons op rest ih =>
    intro s h
    have hrest : ScriptOp.rem k ∉ rest := fun hm => h (List.mem_cons_of_mem _ hm)
    cases op with
    | decl d =>
      have hrun : runScriptOps s (ScriptOp.decl d :: rest) =
          runScriptOps (declare s d).1 rest := rfl
      rw [hrun]
      by_cases hi2 : hasInst s (scriptKey d) = true
      · rw [declare_state_of_hasInst hi2]
        exact ih s hrest
      · have hi2' : hasInst s (scriptKey d) = false := by simpa using hi2
        have hlog := declare_initLog_of_not s d hi2'
        have hle := ih (declare s d).1 hrest
        rw [hlog] at hle
        by_cases hk : scriptKey d = k
        · have hhas : hasInst (declare s d).1 k = true := hk ▸ hasInst_declare_self s d
          rw [hhas] at hle
          simp only [if_true] at hle
          have hck : countKey k (s.initLog ++ [scriptKey d]) = countKey k s.initLog + 1 := by
            simp [countKey, List.countP_append, hk]
          rw [hck] at hle
          have hif : (if hasInst s k = true then 0 else 1) = 1 := by
            rw [← hk]; simp [hi2']
          rw [hif]
          exact le_trans hle (Nat.add_le_add_right (Nat.le_refl _) 1)
        · have hpres : hasInst (declare s d).1 k = hasInst s k :=
            hasInst_declare_other s d k hk
          rw [hpres] at hle
          have hck : countKey k (s.initLog ++ [scriptKey d]) = countKey k s.initLog := by
            have : ((scriptKey d) == k) = false := by simp [hk]
            simp [countKey, List.countP_append, this]
          rw [hck] at hle
          exact hle
    | rem k' =>
      have hk' : k ≠ k' := by
        intro he
        exact h (by rw [he]; exact List.mem_cons_self _ _)
      obtain ⟨hpres, hlog⟩ := removeScript_other s k' k hk'
      have hrun : runScriptOps s (ScriptOp.rem k' :: rest) =
          runScriptOps (removeScript s k').1 rest := rfl
      rw [hrun]
      have hle := ih (removeScript s k').1 hrest
      rw [hpres, hlog] at hle
      exact hle

/-- C4: the `ScriptInstance` declaration in `packages/schema/src/script.ts`
types `onLoaded` and `onError` as returning void (`Unit`): every value they
return is the trivial unit value, which carries no deregistration capability —
no disposer function is returned, contradicting the repository's own
documentation of `onLoaded(cb): () => void`. -/
theorem onLoaded_onError_declared_void {T : Type} (si : ScriptInstanceDecl T)
    (fn : T → Unit) (gn : Option String → Unit) :
    si.onLoaded fn = () ∧ si.onError gn = () :=
  ⟨rfl, rfl⟩

/-- C5: the script status machine — every transition is a self-loop, the
`awaitingLoad → loading` load transition, a `loading → {loaded|error}`
settlement, or a jump to `removed` (reachable from any state); without a load
or remove event the status stays `awaitingLoad` (manual trigger); the three
forward transitions exist; and a second `load()` call causes no further
transition (exactly one underlying transition sequence). -/
theorem script_status_state_machine :
    (∀ (s : ScriptStatus) (e : ScriptEvent),
      scriptStep s e = s ∨
      (s = ScriptStatus.awaitingLoad ∧ scriptStep s e = ScriptStatus.loading) ∨
      (s = ScriptStatus.loading ∧
        (scriptStep s e = ScriptStatus.loaded ∨ scriptStep s e = ScriptStatus.error)) ∨
      scriptStep s e = ScriptStatus.removed) ∧
    (∀ evs : List ScriptEvent, ScriptEvent.loadCall ∉ evs → ScriptEvent.removeCall ∉ evs →
      runScript ScriptStatus.awaitingLoad evs = ScriptStatus.awaitingLoad) ∧
    (scriptStep ScriptStatus.awaitingLoad ScriptEvent.loadCall = ScriptStatus.loading ∧
      scriptStep ScriptStatus.loading ScriptEvent.netOk = ScriptStatus.loaded ∧
      scriptStep ScriptStatus.loading ScriptEvent.netFail = ScriptStatus.error ∧
      ∀ s, scriptStep s ScriptEvent.removeCall = ScriptStatus.removed) ∧
    (∀ s, scriptStep (scriptStep s ScriptEvent.loadCall) ScriptEvent.loadCall =
      scriptStep s ScriptEvent.loadCall) := by
  refine ⟨?_, runScript_stays, ⟨rfl, rfl, rfl, ?_⟩, ?_⟩
  · intro s e
    cases s <;> cases e <;> decide
  · intro s
    cases s <;> rfl
  · intro s
    cases s <;> rfl

/-- Witness for C5 at a concrete input: network signals without a load or
remove event leave a manual-trigger script at `awaitingLoad`. -/
theorem script_status_state_machine_witness :
    runScript ScriptStatus.awaitingLoad [ScriptEvent.netOk, ScriptEvent.netFail] =
      ScriptStatus.awaitingLoad :=
  script_status_state_machine.2.1 [ScriptEvent.netOk, ScriptEvent.netFail]
    (by decide) (by decide)

/-- C6: a second script declaration with the same dedup key returns the
existing instance id and leaves the Script Loader state (instances and
backing registry) entirely unchanged — no new Entry, no new load — regardless
of other differing options; and two declarations of the same key from the
empty state yield exactly one script tag in the resolved list. -/
theorem script_declare_dedup (s : Scripts) (d1 d2 : ScriptDescriptor)
    (h : scriptKey d1 = scriptKey d2) :
    ((declare (declare s d1).1 d2).2 = (declare s d1).2 ∧
      (declare (declare s d1).1 d2).1 = (declare s d1).1) ∧
    (resolve (declare (declare emptyScripts d1).1 d2).1.head).2.countP
      (fun t => t.kind == "script") = 1 := by
  have hpair : ∀ s' : Scripts,
      (declare (declare s' d1).1 d2).2 = (declare s' d1).2 ∧
      (declare (declare s' d1).1 d2).1 = (declare s' d1).1 := by
    intro s'
    obtain ⟨inst, hfi, hid⟩ := findInst_after_declare s' d1
    rw [h] at hfi
    rw [declare_of_found hfi]
    exact ⟨hid, rfl⟩
  refine ⟨hpair s, ?_⟩
  rw [(hpair emptyScripts).2]
  rfl

/-- Witness for C6 at concrete inputs: `/a.js` declared twice with differing
other options. -/
theorem script_declare_dedup_witness :
    ((declare (declare emptyScripts descA).1 descB).2 = (declare emptyScripts descA).2 ∧
      (declare (declare emptyScripts descA).1 descB).1 = (declare emptyScripts descA).1) ∧
    (resolve (declare (declare emptyScripts descA).1 descB).1.head).2.countP
      (fun t => t.kind == "script") = 1 :=
  script_declare_dedup emptyScripts descA descB rfl

/-- C7: before `loaded`, a proxy call is answered by a stub when one resolves
for the property and queued otherwise; the caller always receives only the
unit value (no return value is exposed); reaching `loaded` replays the queue
against the resolved API exactly once, in order, emptying it (a second
`loaded` replays nothing); reaching `error` drops the queue without ever
replaying it. -/
theorem proxy_stub_queue_replay (stub : String → Bool) (st : ProxyState) (c : Call) :
    (st.status ≠ ScriptStatus.loaded → stub c.propName = true →
      (proxyCall stub st c).1 =
        ProxyState.mk st.status st.queue st.apiLog (st.stubLog ++ [c])) ∧
    (st.status ≠ ScriptStatus.loaded → stub c.propName = false →
      (proxyCall stub st c).1 =
        ProxyState.mk st.status (st.queue ++ [c]) st.apiLog st.stubLog) ∧
    ((proxyCall stub st c).2 = ()) ∧
    ((proxyOnLoaded st).apiLog = st.apiLog ++ st.queue ∧ (proxyOnLoaded st).queue = [] ∧
      (proxyOnLoaded (proxyOnLoaded st)).apiLog = (proxyOnLoaded st).apiLog) ∧
    ((proxyOnError st).queue = [] ∧ (proxyOnError st).apiLog = st.apiLog) := by
  refine ⟨?_, ?_, rfl, ⟨rfl, rfl, by simp [proxyOnLoaded]⟩, ⟨rfl, rfl⟩⟩
  · intro hs hstub
    cases hst : st.status
    · simp [proxyCall, hst, hstub]
    · simp [proxyCall, hst, hstub]
    · exact absurd hst hs
    · simp [proxyCall, hst, hstub]
    · simp [proxyCall, hst, hstub]
  · intro hs hstub
    cases hst : st.status
    · simp [proxyCall, hst, hstub]
    · simp [proxyCall, hst, hstub]
    · exact absurd hst hs
    · simp [proxyCall, hst, hstub]
    · simp [proxyCall, hst, hstub]

/-- Witness for C7 at a concrete input: with no stub, a call before load is
queued. -/
theorem proxy_stub_queue_replay_witness :
    (proxyCall (fun _ => false)
        (ProxyState.mk ScriptStatus.awaitingLoad [] [] []) (Call.mk "f" 0)).1 =
      ProxyState.mk ScriptStatus.awaitingLoad [Call.mk "f" 0] [] [] :=
  (proxy_stub_queue_replay (fun _ => false)
    (ProxyState.mk ScriptStatus.awaitingLoad [] [] []) (Call.mk "f" 0)).2.1
    (by decide) rfl

/-- C8: the SSR renderer returns exactly the five string fields, each the
serialization of its zone of the resolved list; and for the registry holding
one entry pushing title `Hello`, `headTags` contains `<title>Hello</title>`
exactly once while `bodyTags` and `bodyTagsOpen` are empty. -/
theorem ssr_render_contract (r : Registry) :
    ((renderSSRHead r).headTags =
      renderTagList (((resolve r).2).filter (fun t => t.zone == Zone.head)) ∧
    (renderSSRHead r).bodyTagsOpen =
      renderTagList (((resolve r).2).filter (fun t => t.zone == Zone.bodyOpen)) ∧
    (renderSSRHead r).bodyTags =
      renderTagList (((resolve r).2).filter (fun t => t.zone == Zone.bodyClose)) ∧
    (renderSSRHead r).htmlAttrs = String.join ((((resolve r).2).filter
      (fun t => t.zone == Zone.htmlAttrs)).map (fun t => renderAttrs t.attributes)) ∧
    (renderSSRHead r).bodyAttrs = String.join ((((resolve r).2).filter
      (fun t => t.zone == Zone.bodyAttrs)).map (fun t => renderAttrs t.attributes))) ∧
    (countOcc "<title>Hello</title>".data (renderSSRHead regHello).headTags.data = 1 ∧
    (renderSSRHead regHello).bodyTags = "" ∧
    (renderSSRHead regHello).bodyTagsOpen = "") :=
  ⟨⟨rfl, rfl, rfl, rfl, rfl⟩, by decide, by decide, by decide⟩

/-- C10: a declaration whose key has a live instance (in particular one whose
status is `loaded`) is a complete no-op — `beforeInit` is not invoked; and
along any operation sequence that never removes the key, `beforeInit` fires
for that key at most once more (zero more times when an instance already
exists), so only removal and re-declaration can cause a second invocation. -/
theorem before_init_at_most_once (s : Scripts) (k : String) (ops : List ScriptOp)
    (d : ScriptDescriptor) :
    (scriptKey d = k → hasInst s k = true → (declare s d).1 = s) ∧
    (ScriptOp.rem k ∉ ops →
      countKey k (runScriptOps s ops).initLog ≤
        countKey k s.initLog + (if hasInst s k = true then 0 else 1)) := by
  constructor
  · intro hk hi
    exact declare_state_of_hasInst (by rw [hk]; exact hi)
  · exact initLog_bound k ops s

/-- Witness for C10 at concrete inputs: re-declaring `/a.js` over the state
already holding it changes nothing, and its `beforeInit` count stays bounded. -/
theorem before_init_at_most_once_witness :
    ((declare scriptsOne descA).1 = scriptsOne) ∧
    (countKey "/a.js" (runScriptOps scriptsOne [ScriptOp.decl descA]).initLog ≤
      countKey "/a.js" scriptsOne.initLog +
        (if hasInst scriptsOne "/a.js" = true then 0 else 1)) :=
  ⟨(before_init_at_most_once scriptsOne "/a.js" [ScriptOp.decl descA] descA).1
      rfl (by decide),
    (before_init_at_most_once scriptsOne "/a.js" [ScriptOp.decl descA] descA).2
      (by decide)⟩

end Unhead
